import Mathlib

/-!
Verification development for the Terminal Session & Process Lifecycle
Manager of the Vibe ADE repository.

The embedding models, from `src/src/main/services/AgentManager.ts`
(the `TerminalManager` class and its helper functions) and from the
destructive-command classifier module:

* JavaScript character classes and a small linear pattern language that
  faithfully captures the concrete regular expressions used by the code
  (all of them are sequences of literals, single-character classes,
  starred/plussed character classes, one optional group and word
  boundaries).  The `/i` flag is modelled by case-folding the subject
  string with an explicit ASCII lowering function; every pattern literal
  is ASCII, so this is equivalent to JavaScript's case-insensitive
  matching on these patterns.
* The session table (`Map<PaneId, TerminalSession>`) as an association
  list with JavaScript `Map` semantics, and the tracked-pid registry
  (`Set<number>`) as an insertion-ordered duplicate-free list.
* The lifecycle operations `startSession`, `stopSession`, `sendInput`,
  `executeInSession`, `resize`, the structured command runner, the
  startup recovery sweep `initialize`/`cleanupStaleSessions`, and the
  registry readers/writers `readTrackedPids`,
  `extractPidsFromCorruptedPayload`, `persistTrackedPids`.

Effects (signals sent, registry mutations, emitted events, bytes written
to a process) are made explicit as returned traces; platform functions
(`JSON.parse`, process liveness, `pty.spawn` success) are abstracted as
parameters.
-/

/-! ## JavaScript character classes -/

/-- JavaScript `\s` restricted to the ASCII whitespace characters
(space, tab, line feed, carriage return, vertical tab, form feed);
the exotic Unicode space characters are not modelled. -/
def isJsWs (c : Char) : Bool :=
  c == ' ' || c == '\t' || c == '\n' || c == '\r' ||
  c == Char.ofNat 11 || c == Char.ofNat 12

/-- ASCII letter, i.e. the class `[A-Za-z]`. -/
def isAsciiAlpha (c : Char) : Bool :=
  ('a' ≤ c && c ≤ 'z') || ('A' ≤ c && c ≤ 'Z')

/-- ASCII digit, i.e. the class `[0-9]` / `\d`. -/
def isAsciiDigit (c : Char) : Bool :=
  '0' ≤ c && c ≤ '9'

/-- JavaScript `\w`: `[A-Za-z0-9_]`. -/
def isWordChar (c : Char) : Bool :=
  isAsciiAlpha c || isAsciiDigit c || c == '_'

/-- The class `[^|&>;\n]` used by the destructive-command patterns. -/
def isNotTermChar (c : Char) : Bool :=
  !(c == '|' || c == '&' || c == '>' || c == ';' || c == '\n')

/-- JavaScript `.` without the `s` flag: any character except the four
line terminators. -/
def isJsDot (c : Char) : Bool :=
  !(c == '\n' || c == '\r' || c == Char.ofNat 0x2028 || c == Char.ofNat 0x2029)

/-- The class `[rf]`. -/
def isRF (c : Char) : Bool := c == 'r' || c == 'f'

/-- The class `[df]`. -/
def isDF (c : Char) : Bool := c == 'd' || c == 'f'

/-- The uppercase/lowercase ASCII letter pairs. -/
def ucPairs : List (Char × Char) :=
  [('A','a'), ('B','b'), ('C','c'), ('D','d'), ('E','e'), ('F','f'),
   ('G','g'), ('H','h'), ('I','i'), ('J','j'), ('K','k'), ('L','l'),
   ('M','m'), ('N','n'), ('O','o'), ('P','p'), ('Q','q'), ('R','r'),
   ('S','s'), ('T','t'), ('U','u'), ('V','v'), ('W','w'), ('X','x'),
   ('Y','y'), ('Z','z')]

/-- ASCII case folding of one character (identity off `A`–`Z`). -/
def lowerChar (c : Char) : Char :=
  (((ucPairs.find? (fun p => p.1 == c)).map (fun p => p.2)).getD c)

/-- ASCII case folding of a string; models applying a `/i`-flagged
ASCII pattern by folding the subject instead. -/
def strLower (s : List Char) : List Char := s.map lowerChar

/-- JavaScript `String.prototype.trim` (over the modelled whitespace). -/
def jsTrim (s : List Char) : List Char :=
  ((s.dropWhile isJsWs).reverse.dropWhile isJsWs).reverse

/-! ## A linear pattern language

Every regular expression appearing in the code is a sequence of plain
literals, single-character classes, `*`/`+`-quantified character
classes, at most one optional group and `\b` word boundaries, so this
small language captures them exactly. -/

/-- A non-nested pattern atom (the body of an optional group). -/
inductive PatAtom where
  /-- A literal character sequence. -/
  | lit (cs : List Char)
  /-- A single character of a class. -/
  | one (f : Char → Bool)
  /-- Zero or more characters of a class (`f*`). -/
  | star (f : Char → Bool)
  /-- One or more characters of a class (`f+`). -/
  | plus (f : Char → Bool)
  /-- A word boundary `\b`. -/
  | wb

/-- One item of a linear pattern: an atom, or an optional group of
atoms (`(...)?` — the one grouping construct the source regexes use,
never nested). -/
inductive PatItem where
  /-- A literal character sequence. -/
  | lit (cs : List Char)
  /-- A single character of a class. -/
  | one (f : Char → Bool)
  /-- Zero or more characters of a class (`f*`). -/
  | star (f : Char → Bool)
  /-- One or more characters of a class (`f+`). -/
  | plus (f : Char → Bool)
  /-- An optional group (`(...)?`). -/
  | opt (g : List PatAtom)
  /-- A word boundary `\b`. -/
  | wb

/-- An atom, as a pattern item. -/
def atomToItem : PatAtom → PatItem
  | .lit cs => .lit cs
  | .one f => .one f
  | .star f => .star f
  | .plus f => .plus f
  | .wb => .wb

/-- Whether an optional preceding character is a word character
(`none` stands for the edge of the subject). -/
def isWordOpt : Option Char → Bool
  | none => false
  | some c => isWordChar c

/-- Whether the position between `prev` and the head of `s` is a
JavaScript word boundary. -/
def atWordBoundary (prev : Option Char) (s : List Char) : Bool :=
  isWordOpt prev != isWordOpt s.head?

/-- Size of an atom, for the matcher's fuel. -/
def atomSize : PatAtom → Nat
  | .lit cs => 1 + cs.length
  | .plus _ => 2
  | _ => 1

/-- Size of a pattern item, for the matcher's fuel. -/
def itemSize : PatItem → Nat
  | .lit cs => 1 + cs.length
  | .plus _ => 2
  | .opt g => 2 + (g.map atomSize).sum
  | _ => 1

/-- Size of a pattern, for the matcher's fuel. -/
def itemsSize (items : List PatItem) : Nat :=
  (items.map itemSize).sum

/-- Backtracking matcher, fuelled so that it is structurally recursive
(and so kernel-reducible on concrete subjects): does the pattern
`items` match a prefix of `s`, where `prev` is the character
immediately before `s` in the whole subject (for `\b`)?  Every
recursive call strictly decreases `s.length + itemsSize items`, so any
fuel exceeding that measure computes the true match result; `0` fuel
(never reached from `matchItems`) conservatively fails. -/
def matchItemsF : Nat → List PatItem → Option Char → List Char → Bool
  | 0, _, _, _ => false
  | fuel + 1, items, prev, s =>
    match items, prev, s with
    | [], _, _ => true
    | .lit [] :: rest, prev, s => matchItemsF fuel rest prev s
    | .lit (c :: cs) :: rest, _, s =>
      match s with
      | [] => false
      | d :: s' => c == d && matchItemsF fuel (.lit cs :: rest) (some d) s'
    | .one f :: rest, _, s =>
      match s with
      | [] => false
      | c :: s' => f c && matchItemsF fuel rest (some c) s'
    | .star f :: rest, prev, s =>
      matchItemsF fuel rest prev s ||
        match s with
        | [] => false
        | c :: s' => f c && matchItemsF fuel (.star f :: rest) (some c) s'
    | .plus f :: rest, _, s =>
      match s with
      | [] => false
      | c :: s' => f c && matchItemsF fuel (.star f :: rest) (some c) s'
    | .opt g :: rest, prev, s =>
      matchItemsF fuel (g.map atomToItem ++ rest) prev s ||
        matchItemsF fuel rest prev s
    | .wb :: rest, prev, s =>
      atWordBoundary prev s && matchItemsF fuel rest prev s

/-- Anchored match of a pattern against the front of the remaining
subject, with enough fuel for the whole search. -/
def matchItems (items : List PatItem) (prev : Option Char) (s : List Char) :
    Bool :=
  matchItemsF (s.length + itemsSize items + 1) items prev s

/-- Unanchored search, scanning every start position left to right:
models `RegExp.prototype.test`. -/
def searchAux (p : List PatItem) : Option Char → List Char → Bool
  | prev, [] => matchItems p prev []
  | prev, c :: s' => matchItems p prev (c :: s') || searchAux p (some c) s'

/-- `testPat p s` models `/p/.test(s)`. -/
def testPat (p : List PatItem) (s : List Char) : Bool :=
  searchAux p none s

/-- Anchored match at the start of the subject: models a `^`-anchored
test. -/
def matchAtStart (p : List PatItem) (s : List Char) : Bool :=
  matchItems p none s

/-! ## Destructive-command classifier

The `DESTRUCTIVE_PATTERNS` list and `isDestructiveCommand`, one pattern
per source regular expression, in source order.  All the regexes carry
the `/i` flag, modelled by folding the subject with `strLower` and
writing the literals lowercase. -/

/-- `/\brm\s+(-[rf]+\s+)?[^|&>;\n]+/i` -/
def patRm : List PatItem :=
  [.wb, .lit "rm".data, .plus isJsWs,
   .opt [.lit "-".data, .plus isRF, .plus isJsWs], .plus isNotTermChar]

/-- `/\bdel\s+[^|&>;\n]+/i` -/
def patDel : List PatItem :=
  [.wb, .lit "del".data, .plus isJsWs, .plus isNotTermChar]

/-- `/\bRemove-Item\s+[^|&>;\n]+/i` -/
def patRemoveItem : List PatItem :=
  [.wb, .lit "remove-item".data, .plus isJsWs, .plus isNotTermChar]

/-- `/\berase\s+[^|&>;\n]+/i` -/
def patErase : List PatItem :=
  [.wb, .lit "erase".data, .plus isJsWs, .plus isNotTermChar]

/-- `/\bformat\s+/i` -/
def patFormat : List PatItem :=
  [.wb, .lit "format".data, .plus isJsWs]

/-- `/\bdiskpart\s+/i` -/
def patDiskpart : List PatItem :=
  [.wb, .lit "diskpart".data, .plus isJsWs]

/-- `/\bmkfs\./i` -/
def patMkfs : List PatItem :=
  [.wb, .lit "mkfs.".data]

/-- `/\breg\s+delete/i` -/
def patRegDelete : List PatItem :=
  [.wb, .lit "reg".data, .plus isJsWs, .lit "delete".data]

/-- `/\bsc\s+delete/i` -/
def patScDelete : List PatItem :=
  [.wb, .lit "sc".data, .plus isJsWs, .lit "delete".data]

/-- `/\bchkdsk\s+.*\/f/i` -/
def patChkdsk : List PatItem :=
  [.wb, .lit "chkdsk".data, .plus isJsWs, .star isJsDot, .lit "/f".data]

/-- `/\bgit\s+reset\s+--hard/i` -/
def patGitReset : List PatItem :=
  [.wb, .lit "git".data, .plus isJsWs, .lit "reset".data, .plus isJsWs,
   .lit "--hard".data]

/-- `/\bgit\s+clean\s+-[df]+/i` -/
def patGitClean : List PatItem :=
  [.wb, .lit "git".data, .plus isJsWs, .lit "clean".data, .plus isJsWs,
   .lit "-".data, .plus isDF]

/-- `/\bgit\s+push\s+.*--force/i` -/
def patGitPush : List PatItem :=
  [.wb, .lit "git".data, .plus isJsWs, .lit "push".data, .plus isJsWs,
   .star isJsDot, .lit "--force".data]

/-- `/\brm\s+-[rf]+/i` -/
def patRmRf : List PatItem :=
  [.wb, .lit "rm".data, .plus isJsWs, .lit "-".data, .plus isRF]

/-- `/\bRemove-Item\s+.*-Recurse/i` -/
def patRemoveItemRecurse : List PatItem :=
  [.wb, .lit "remove-item".data, .plus isJsWs, .star isJsDot,
   .lit "-recurse".data]

/-- `/>\s*\/dev\/[^|&>;\n]+/i` -/
def patDevRedirect : List PatItem :=
  [.lit ">".data, .star isJsWs, .lit "/dev/".data, .plus isNotTermChar]

/-- `/>\s*[a-zA-Z]:\\[^|&>;\n]+/i` -/
def patDriveRedirect : List PatItem :=
  [.lit ">".data, .star isJsWs, .one isAsciiAlpha, .lit ":\\".data,
   .plus isNotTermChar]

/-- `/\btaskkill\s+.*\/f/i` -/
def patTaskkill : List PatItem :=
  [.wb, .lit "taskkill".data, .plus isJsWs, .star isJsDot, .lit "/f".data]

/-- `/\bkill\s+-9/i` -/
def patKill9 : List PatItem :=
  [.wb, .lit "kill".data, .plus isJsWs, .lit "-9".data]

/-- `/\bshutdown\s+/i` -/
def patShutdown : List PatItem :=
  [.wb, .lit "shutdown".data, .plus isJsWs]

/-- `/\brestart-computer/i` -/
def patRestartComputer : List PatItem :=
  [.wb, .lit "restart-computer".data]

/-- The `DESTRUCTIVE_PATTERNS` array, in source order. -/
def DESTRUCTIVE_PATTERNS : List (List PatItem) :=
  [patRm, patDel, patRemoveItem, patErase,
   patFormat, patDiskpart, patMkfs,
   patRegDelete, patScDelete, patChkdsk,
   patGitReset, patGitClean, patGitPush,
   patRmRf, patRemoveItemRecurse,
   patDevRedirect, patDriveRedirect,
   patTaskkill, patKill9,
   patShutdown, patRestartComputer]

/-- `isDestructiveCommand`: `DESTRUCTIVE_PATTERNS.some((p) => p.test(command))`. -/
def isDestructiveCommand (command : String) : Bool :=
  DESTRUCTIVE_PATTERNS.any (fun p => testPat p (strLower command.data))

/-! ## Shell dialect resolver -/

/-- `ShellType` from the shared type declarations. -/
inductive ShellType where
  | powershell
  | cmd
  deriving DecidableEq, Repr

/-- A launch or one-shot execution specification. -/
structure LaunchSpec where
  file : String
  args : List String
  deriving DecidableEq, Repr

/-- `getShellCommand`: interactive launch spec per shell kind. -/
def getShellCommand : ShellType → LaunchSpec
  | .cmd => ⟨"cmd.exe", ["/Q"]⟩
  | .powershell =>
    ⟨"powershell.exe", ["-NoLogo", "-NoProfile", "-ExecutionPolicy", "Bypass"]⟩

/-- `getExecArgs`: one-shot execution spec per shell kind. -/
def getExecArgs (shell : ShellType) (command : String) : LaunchSpec :=
  match shell with
  | .cmd => ⟨"cmd.exe", ["/D", "/S", "/C", command]⟩
  | .powershell =>
    ⟨"powershell.exe", ["-NoProfile", "-ExecutionPolicy", "Bypass", "-Command", command]⟩

/-- `/^([A-Za-z]+-+[A-Za-z]+)/` (case-sensitive; the classes are
case-symmetric). -/
def patVerbNoun : List PatItem :=
  [.plus isAsciiAlpha, .plus (fun c => c == '-'), .plus isAsciiAlpha]

/-- `/^\$[A-Za-z_][A-Za-z0-9_]*/` -/
def patDollarIdent : List PatItem :=
  [.lit "$".data, .one (fun c => isAsciiAlpha c || c == '_'), .star isWordChar]

/-- `/\$\w+/` -/
def patDollarWord : List PatItem :=
  [.lit "$".data, .plus isWordChar]

/-- `/\|\s*Where-Object\b/i` (literal written lowercase; the subject is
folded). -/
def patPipeWhereObject : List PatItem :=
  [.lit "|".data, .star isJsWs, .lit "where-object".data, .wb]

/-- `/\|\s*ForEach-Object\b/i` -/
def patPipeForEachObject : List PatItem :=
  [.lit "|".data, .star isJsWs, .lit "foreach-object".data, .wb]

/-- `looksLikePowerShellCommand`: trims the command, returns `false` on
an empty result, otherwise tests the five heuristic patterns in source
order (the two `/i` patterns against the folded subject). -/
def looksLikePowerShellCommand (command : String) : Bool :=
  let trimmed := jsTrim command.data
  if trimmed.isEmpty then false
  else
    matchAtStart patVerbNoun trimmed ||
    matchAtStart patDollarIdent trimmed ||
    testPat patDollarWord trimmed ||
    testPat patPipeWhereObject (strLower trimmed) ||
    testPat patPipeForEachObject (strLower trimmed)

/-! ## The dialect proxy: UTF-16LE bytes and base64 -/

/-- `Buffer.from(command, 'utf16le')`: the little-endian UTF-16 code
units of the string as a byte list (surrogate pairs for code points
beyond the basic plane; Lean `Char` never holds a lone surrogate). -/
def utf16leBytes (s : List Char) : List Nat :=
  s.flatMap (fun c =>
    let n := c.toNat
    if n < 0x10000 then
      [n % 256, n / 256]
    else
      let m := n - 0x10000
      let hi := 0xD800 + m / 0x400
      let lo := 0xDC00 + m % 0x400
      [hi % 256, hi / 256, lo % 256, lo / 256])

/-- The standard base64 alphabet. -/
def b64Alphabet : List Char :=
  "ABCDEFGHIJKLMNOPQRSTUVWXYZabcdefghijklmnopqrstuvwxyz0123456789+/".data

/-- The base64 digit for a 6-bit value. -/
def b64Char (n : Nat) : Char :=
  b64Alphabet.getD n 'A'

/-- `Buffer.prototype.toString('base64')`: standard base64 with `=`
padding. -/
def base64Encode : List Nat → List Char
  | [] => []
  | [a] =>
    [b64Char (a / 4), b64Char (a % 4 * 16), '=', '=']
  | [a, b] =>
    [b64Char (a / 4), b64Char (a % 4 * 16 + b / 16), b64Char (b % 16 * 4), '=']
  | a :: b :: c :: rest =>
    b64Char (a / 4) :: b64Char (a % 4 * 16 + b / 16) ::
      b64Char (b % 16 * 4 + c / 64) :: b64Char (c % 64) :: base64Encode rest

/-- `buildPowerShellProxyCommand`: wraps the command as an
`-EncodedCommand` invocation of PowerShell, transport-encoding the
original text as base64 over its UTF-16LE bytes. -/
def buildPowerShellProxyCommand (command : String) : String :=
  "powershell.exe -NoProfile -ExecutionPolicy Bypass -EncodedCommand " ++
    String.mk (base64Encode (utf16leBytes command.data))

/-! ## Registry file reading

`readTrackedPids` and `extractPidsFromCorruptedPayload`.  The regex
`/"pids"\s*:\s*\[([^\]]*)\]/g` with `matchAll` is modelled by a direct
left-to-right scanner that, at each position, tries to match the
pattern and on success captures the bracket content and resumes after
the match. -/

/-- Drops `pre` from the front of `s` if it is literally there. -/
def dropLitPrefix : List Char → List Char → Option (List Char)
  | [], s => some s
  | _ :: _, [] => none
  | c :: cs, d :: ds => if c == d then dropLitPrefix cs ds else none

/-- Splits off the characters before the first `]` (the capture of
`([^\]]*)\]`); fails when no `]` follows. -/
def takeUntilRBracket : List Char → Option (List Char × List Char)
  | [] => none
  | c :: rest =>
    if c == ']' then some ([], rest)
    else (takeUntilRBracket rest).map (fun p => (c :: p.1, p.2))

/-- Expects one specific character at the front of the subject. -/
def expectChar (c : Char) : List Char → Option (List Char)
  | [] => none
  | d :: rest => if c == d then some rest else none

/-- One attempt to match `"pids"\s*:\s*\[([^\]]*)\]` at the current
position; returns the capture and the remainder after the match. -/
def matchPidsAt (s : List Char) : Option (List Char × List Char) :=
  (dropLitPrefix "\"pids\"".data s).bind fun r1 =>
  (expectChar ':' (r1.dropWhile isJsWs)).bind fun r2 =>
  (expectChar '[' (r2.dropWhile isJsWs)).bind fun r3 =>
  takeUntilRBracket r3

theorem dropLitPrefix_length (cs : List Char) :
    ∀ s r, dropLitPrefix cs s = some r → r.length + cs.length = s.length := by
  induction cs with
  | nil => intro s r h; simp [dropLitPrefix] at h; simp [h]
  | cons c cs ih =>
    intro s r h
    cases s with
    | nil => simp [dropLitPrefix] at h
    | cons d ds =>
      simp only [dropLitPrefix] at h
      split at h
      · have := ih ds r h
        simp only [List.length_cons]
        omega
      · exact absurd h (by simp)

theorem expectChar_length (c : Char) (s r : List Char)
    (h : expectChar c s = some r) : r.length + 1 = s.length := by
  cases s with
  | nil => simp [expectChar] at h
  | cons d ds =>
    simp only [expectChar] at h
    split at h
    · simp only [Option.some.injEq] at h
      simp [← h]
    · exact absurd h (by simp)

theorem length_dropWhile_le (p : Char → Bool) (l : List Char) :
    (l.dropWhile p).length ≤ l.length := by
  induction l with
  | nil => simp [List.dropWhile]
  | cons c cs ih =>
    simp only [List.dropWhile]
    split
    · simpa using Nat.le_succ_of_le ih
    · simp

theorem takeUntilRBracket_length :
    ∀ s cap r, takeUntilRBracket s = some (cap, r) → r.length < s.length := by
  intro s
  induction s with
  | nil => intro cap r h; simp [takeUntilRBracket] at h
  | cons c rest ih =>
    intro cap r h
    simp only [takeUntilRBracket] at h
    split at h
    · simp only [Option.some.injEq, Prod.mk.injEq] at h
      simp [← h.2]
    · cases hrec : takeUntilRBracket rest with
      | none => rw [hrec] at h; simp at h
      | some p =>
        rw [hrec] at h
        simp only [Option.map_some', Option.some.injEq, Prod.mk.injEq] at h
        have := ih p.1 p.2 (by rw [hrec])
        have hr : r = p.2 := by rw [← h.2]
        simp [hr]
        omega

theorem matchPidsAt_length (s cap r : List Char)
    (h : matchPidsAt s = some (cap, r)) : r.length < s.length := by
  unfold matchPidsAt at h
  cases hd : dropLitPrefix "\"pids\"".data s with
  | none => rw [hd] at h; simp at h
  | some r1 =>
    rw [hd] at h
    simp only [Option.some_bind] at h
    cases he1 : expectChar ':' (r1.dropWhile isJsWs) with
    | none => rw [he1] at h; simp at h
    | some r2 =>
      rw [he1] at h
      simp only [Option.some_bind] at h
      cases he2 : expectChar '[' (r2.dropWhile isJsWs) with
      | none => rw [he2] at h; simp at h
      | some r3 =>
        rw [he2] at h
        simp only [Option.some_bind] at h
        have l1 : r1.length + 6 = s.length := by
          have := dropLitPrefix_length "\"pids\"".data s r1 hd
          simpa using this
        have l2 := expectChar_length ':' (r1.dropWhile isJsWs) r2 he1
        have l3 := expectChar_length '[' (r2.dropWhile isJsWs) r3 he2
        have l4 := length_dropWhile_le isJsWs r1
        have l5 := length_dropWhile_le isJsWs r2
        have l6 := takeUntilRBracket_length r3 cap r h
        omega

/-- `matchAll` over the whole payload: scan left to right, collecting
every capture, resuming after each match. -/
def scanPids : List Char → List (List Char)
  | [] => []
  | c :: rest =>
    match h : matchPidsAt (c :: rest) with
    | some (cap, after) => cap :: scanPids after
    | none => scanPids rest
  termination_by s => s.length
  decreasing_by
  · exact matchPidsAt_length _ _ _ h
  · simp

/-- `String.prototype.split(',')`: always at least one (possibly
empty) token. -/
def splitComma : List Char → List (List Char)
  | [] => [[]]
  | c :: rest =>
    if c == ',' then [] :: splitComma rest
    else
      match splitComma rest with
      | t :: ts => (c :: t) :: ts
      | [] => [[c]]

/-- The digit run at the front of the subject, as a number; `none`
when there is no digit (`parseInt` returns `NaN`). -/
def parseDigits (s : List Char) : Option Nat :=
  let ds := s.takeWhile isAsciiDigit
  if ds.isEmpty then none
  else some (ds.foldl (fun acc c => acc * 10 + (c.toNat - '0'.toNat)) 0)

/-- `Number.parseInt(s, 10)`: skip whitespace, optional sign, longest
digit run; `none` models `NaN`. -/
def jsParseInt (s : List Char) : Option Int :=
  match s.dropWhile isJsWs with
  | '+' :: r => (parseDigits r).map (fun n => (n : Int))
  | '-' :: r => (parseDigits r).map (fun n => -(n : Int))
  | r => (parseDigits r).map (fun n => (n : Int))

/-- Insertion into a JavaScript `Set` viewed as an insertion-ordered
duplicate-free list. -/
def setInsertInt (s : List Int) (v : Int) : List Int :=
  if v ∈ s then s else s ++ [v]

/-- One token of a captured pid-array body: trim it, `parseInt` it,
and add it to the recovered set when it is a positive integer. -/
def extractStep (acc : List Int) (tok : List Char) : List Int :=
  match jsParseInt (jsTrim tok) with
  | some v => if 0 < v then setInsertInt acc v else acc
  | none => acc

/-- The comma-separated tokens of every `"pids": [...]` substring of
the payload, in scan order. -/
def allPidTokens (raw : String) : List (List Char) :=
  (scanPids raw.data).flatMap splitComma

/-- `extractPidsFromCorruptedPayload`: best-effort scan of a corrupt
payload for `"pids": [...]` substrings, recovering the distinct
positive integers found, in first-appearance order. -/
def extractPidsFromCorruptedPayload (raw : String) : List Int :=
  (allPidTokens raw).foldl extractStep []

/-- An element of a JSON-parsed pid array: an integral number, or any
other JavaScript value (filtered out by `Number.isInteger`). -/
inductive JsVal where
  | int (n : Int)
  | nonInt
  deriving DecidableEq, Repr

/-- `.filter((pid) => Number.isInteger(pid) && pid > 0)`. -/
def filterValidPids (xs : List JsVal) : List Int :=
  xs.filterMap fun v =>
    match v with
    | .int n => if 0 < n then some n else none
    | .nonInt => none

/-- The outcome of `JSON.parse` on the registry payload, abstracted:
a top-level array, a non-array value whose `pids` member is an array
or absent/nullish, a non-array value whose `pids` member is present
but not an array (so `.filter` throws a `TypeError`), or a thrown
`SyntaxError`. -/
inductive ParseOutcome where
  | jsArray (xs : List JsVal)
  | jsObjPids (pids : Option (List JsVal))
  | jsObjBadPids
  | syntaxError
  deriving Repr

/-- `readTrackedPids`: `none` for the file models `ENOENT`.  Missing
file and blank payload yield the empty list; a clean parse filters the
valid positive integers; any in-`try` throw (syntax error or bad
`pids` member) falls back to the corrupt-payload scan, and an empty
recovery degrades to the empty list.  Total — the authority for
"never throws". -/
def readTrackedPids (file : Option String) (parse : String → ParseOutcome) :
    List Int :=
  match file with
  | none => []
  | some raw =>
    if (jsTrim raw.data).isEmpty then []
    else
      match parse raw with
      | .jsArray xs => filterValidPids xs
      | .jsObjPids pids => filterValidPids (pids.getD [])
      | .jsObjBadPids =>
        let recovered := extractPidsFromCorruptedPayload raw
        if recovered.length > 0 then recovered else []
      | .syntaxError =>
        let recovered := extractPidsFromCorruptedPayload raw
        if recovered.length > 0 then recovered else []

/-! ## The terminal manager state -/

/-- `TerminalSession`: one pane bound to one live process, of which we
keep the OS process identifier. -/
structure TerminalSession where
  paneId : String
  shell : ShellType
  cwd : String
  pid : Int
  deriving DecidableEq, Repr

/-- The manager's mutable state: the session table (a JavaScript `Map`
as an association list) and the tracked-pid registry (a JavaScript
`Set` as an insertion-ordered duplicate-free list). -/
structure TMState where
  sessions : List (String × TerminalSession)
  trackedPids : List Int
  deriving DecidableEq, Repr

/-- The state of a freshly constructed manager. -/
def initTM : TMState := ⟨[], []⟩

/-- `Map.prototype.get`. -/
def mapGet (m : List (String × TerminalSession)) (k : String) :
    Option TerminalSession :=
  (m.find? (fun kv => kv.1 == k)).map (fun kv => kv.2)

/-- `Map.prototype.set`: replaces in place or appends. -/
def mapSet (m : List (String × TerminalSession)) (k : String)
    (v : TerminalSession) : List (String × TerminalSession) :=
  match m with
  | [] => [(k, v)]
  | kv :: rest => if kv.1 == k then (k, v) :: rest else kv :: mapSet rest k v

/-- `Map.prototype.delete`. -/
def mapDelete (m : List (String × TerminalSession)) (k : String) :
    List (String × TerminalSession) :=
  m.filter (fun kv => kv.1 != k)

/-- `trackPid`: silently ignores non-positive identifiers, otherwise
adds to the set (and triggers a persist). -/
def trackPidSet (s : List Int) (pid : Int) : List Int :=
  if pid ≤ 0 then s else setInsertInt s pid

/-- `untrackPid`: silently ignores non-positive identifiers, otherwise
deletes from the set (and triggers a persist). -/
def untrackPidSet (s : List Int) (pid : Int) : List Int :=
  if pid ≤ 0 then s else s.erase pid

/-- A mutation of the tracked-pid set: the calls the manager makes
(`trackPid`, `untrackPid`, and `shutdown`'s `clear`). -/
inductive RegCall where
  | track (pid : Int)
  | untrack (pid : Int)
  | clear
  deriving DecidableEq, Repr

/-- Applies one registry mutation. -/
def applyRegCall (s : List Int) : RegCall → List Int
  | .track p => trackPidSet s p
  | .untrack p => untrackPidSet s p
  | .clear => []

/-- The serialized registry: `{ version: 1, pids: [...] }`. -/
structure RegistryPayload where
  version : Nat
  pids : List Int
  deriving DecidableEq, Repr

/-- `persistTrackedPids`: the payload written (atomically, via
write-temp-then-rename) after every mutation. -/
def persistTrackedPids (trackedPids : List Int) : RegistryPayload :=
  ⟨1, trackedPids⟩

/-- A published event: `data(paneId, text)` or `exit(paneId, code)`. -/
inductive TerminalEvent where
  | data (paneId : String) (text : String)
  | exit (paneId : String) (exitCode : Int)
  deriving DecidableEq, Repr

/-! ## Lifecycle operations

Each operation returns its successor state together with explicit
traces of its effects: registry mutations performed, kill signals
sent, bytes written, events published. -/

/-- `stopSession`: no-op when the pane has no session; otherwise kills
the process, removes the session from the table and untracks its pid.
Returns (state, registry mutations, pids signalled). -/
def stopSession (st : TMState) (paneId : String) :
    TMState × List RegCall × List Int :=
  match mapGet st.sessions paneId with
  | none => (st, [], [])
  | some s =>
    ({ sessions := mapDelete st.sessions paneId,
       trackedPids := untrackPidSet st.trackedPids s.pid },
     if 0 < s.pid then [.untrack s.pid] else [],
     [s.pid])

/-- `startSession`: stops any existing session for the pane first,
spawns (the fresh pid is `newPid`), stores the new session and tracks
its pid.  Returns (state, registry mutations, pids signalled). -/
def startSession (st : TMState) (paneId : String) (shell : ShellType)
    (cwd : String) (newPid : Int) : TMState × List RegCall × List Int :=
  let stopped := stopSession st paneId
  let session : TerminalSession := ⟨paneId, shell, cwd, newPid⟩
  ({ sessions := mapSet stopped.1.sessions paneId session,
     trackedPids := trackPidSet stopped.1.trackedPids newPid },
   stopped.2.1 ++ (if 0 < newPid then [.track newPid] else []),
   stopped.2.2)

/-- `startSession` with the outcome of `pty.spawn` made explicit:
`none` models the spawn call throwing.  The code has no handler around
`pty.spawn`, so a throw propagates out of `startSession` after the
replace-stop already ran; no event is published during the call in
either case (the `data`/`exit` handlers only fire later). -/
def startSessionSpawn (st : TMState) (paneId : String) (shell : ShellType)
    (cwd : String) (spawnResult : Option Int) :
    Except String TMState × List RegCall × List TerminalEvent :=
  let stopped := stopSession st paneId
  match spawnResult with
  | none => (.error "spawn failed", stopped.2.1, [])
  | some newPid =>
    let session : TerminalSession := ⟨paneId, shell, cwd, newPid⟩
    (.ok { sessions := mapSet stopped.1.sessions paneId session,
           trackedPids := trackPidSet stopped.1.trackedPids newPid },
     stopped.2.1 ++ (if 0 < newPid then [.track newPid] else []), [])

/-- `sendInput`: throws a descriptive error when the pane has no
session, otherwise forwards the raw bytes unmodified (the returned
list is the writes performed; the state is untouched by type). -/
def sendInput (st : TMState) (paneId : String) (input : String) :
    Except String (List String) :=
  match mapGet st.sessions paneId with
  | none => .error ("No terminal session for pane " ++ paneId)
  | some _ => .ok [input]

/-- `executeInSession`: throws a descriptive error when the pane has
no session.  On a `cmd` session whose command looks like PowerShell,
substitutes the encoded proxy invocation; then writes the (possibly
substituted) command and the submit key as two separate writes.  The
returned flag records whether a delayed second submit write was
scheduled (`forceSubmit`). -/
def executeInSession (st : TMState) (paneId : String) (command : String)
    (forceSubmit : Bool) : Except String (List String × Bool) :=
  match mapGet st.sessions paneId with
  | none => .error ("No terminal session for pane " ++ paneId)
  | some session =>
    let nextCommand :=
      if session.shell == .cmd && looksLikePowerShellCommand command then
        buildPowerShellProxyCommand command
      else command
    .ok ([nextCommand, "\r"], forceSubmit)

/-- `resize`: no-op when the pane has no session, otherwise propagates
the dimensions to the pseudo-terminal (returned; the state is
untouched). -/
def resize (st : TMState) (paneId : String) (cols rows : Int) :
    TMState × Option (Int × Int) :=
  match mapGet st.sessions paneId with
  | none => (st, none)
  | some _ => (st, some (cols, rows))

/-- The session's process runs to completion: node-pty delivers every
`onData` callback in arrival order before the single `onExit`
callback; the handlers wired in `startSession` forward each chunk as a
`data` event, then publish one `exit` event, delete the session and
untrack the pid. -/
def runSessionProcess (st : TMState) (paneId : String)
    (chunks : List String) (exitCode : Int) : TMState × List TerminalEvent :=
  match mapGet st.sessions paneId with
  | none => (st, [])
  | some s =>
    ({ sessions := mapDelete st.sessions paneId,
       trackedPids := untrackPidSet st.trackedPids s.pid },
     chunks.map (TerminalEvent.data paneId) ++ [TerminalEvent.exit paneId exitCode])

/-! ## Structured command runner -/

/-- `CommandBlock` from the shared type declarations (the fields this
core writes). -/
structure CommandBlock where
  id : String
  paneId : String
  command : String
  output : String
  exitCode : Option Int
  startedAt : String
  completedAt : Option String
  collapsed : Bool
  deriving DecidableEq, Repr

/-- How the one-shot child process behaves: an `error` event fires
(OS-level spawn failure), or the combined stdout/stderr chunks arrive
in order and `close` reports the exit code (`none` when the process
could not report one). -/
inductive SpawnOutcome where
  | spawnError (message : String)
  | completes (chunks : List String) (code : Option Int)
  deriving Repr

/-- `runStructuredCommand`: builds the block with a null exit code,
spawns via the one-shot exec spec, accumulates chunks into `output`
while republishing each as a `data` event for the pane, and finalizes
`exitCode`/`completedAt` exactly once on `close`; a spawn `error`
rejects the promise.  Returns the exec spec used, the settled promise,
and the published events. -/
def runStructuredCommand (paneId : String) (shell : ShellType) (cwd : String)
    (command : String) (freshId startedAt completedAt : String)
    (outcome : SpawnOutcome) :
    LaunchSpec × Except String CommandBlock × List TerminalEvent :=
  let execArgs := getExecArgs shell command
  match outcome with
  | .spawnError msg => (execArgs, .error msg, [])
  | .completes chunks code =>
    (execArgs,
     .ok { id := freshId, paneId := paneId, command := command,
           output := String.join chunks,
           exitCode := some (code.getD (-1)),
           startedAt := startedAt,
           completedAt := some completedAt,
           collapsed := true },
     chunks.map (TerminalEvent.data paneId))

/-! ## Startup recovery sweep -/

/-- `cleanupStaleSessions`: for each loaded pid, `process.kill(pid, 0)`
probes liveness (`alive pid`) and, on success, `process.kill(pid)`
sends the termination signal; a probe failure (`ESRCH`/`EPERM`) skips
the pid.  Returns the pids signalled, in order. -/
def cleanupStaleSessions (stalePids : List Int) (alive : Int → Bool) :
    List Int :=
  stalePids.foldl (fun acc pid => if alive pid then acc ++ [pid] else acc) []

/-- `initialize()` on a freshly constructed manager: runs the cleanup
sweep over the pids read from the registry file, then persists the
tracked set — empty at this point.  Returns the pids signalled and
the payload persisted. -/
def initializeTM (file : Option String) (parse : String → ParseOutcome)
    (alive : Int → Bool) : List Int × RegistryPayload :=
  let stale := readTrackedPids file parse
  (cleanupStaleSessions stale alive, persistTrackedPids initTM.trackedPids)

/-! ## Operation sequences (for state invariants) -/

/-- The state-mutating operations reaching the session table. -/
inductive TMOp where
  | start (paneId : String) (shell : ShellType) (cwd : String) (newPid : Int)
  | stop (paneId : String)
  | procExit (paneId : String) (chunks : List String) (exitCode : Int)

/-- Applies one operation (projecting the state component). -/
def applyTMOp (st : TMState) : TMOp → TMState
  | .start paneId shell cwd newPid => (startSession st paneId shell cwd newPid).1
  | .stop paneId => (stopSession st paneId).1
  | .procExit paneId chunks code => (runSessionProcess st paneId chunks code).1

/-- The state after a sequence of operations on a fresh manager. -/
def runTMOps (ops : List TMOp) : TMState :=
  ops.foldl applyTMOp initTM

/-- The pane keys of the session table. -/
def sessionKeys (m : List (String × TerminalSession)) : List String :=
  m.map (fun kv => kv.1)

/-- The number of table entries bound to a pane. -/
def countKey (m : List (String × TerminalSession)) (k : String) : Nat :=
  (m.filter (fun kv => kv.1 == k)).length

/-- Whether an event is an exit event for the pane. -/
def isExitEvent (paneId : String) : TerminalEvent → Bool
  | .exit p _ => p == paneId
  | .data _ _ => false

/-- Whether an event is a data event for the pane. -/
def isDataEvent (paneId : String) : TerminalEvent → Bool
  | .data p _ => p == paneId
  | .exit _ _ => false

/-- All integers `parseInt` finds among the tokens of the recognizable
`"pids": [...]` substrings of a payload, duplicates and non-positive
values included: the reference against which the recovered set is
"exactly the distinct positive integers found". -/
def foundPidInts (raw : String) : List Int :=
  (allPidTokens raw).filterMap (fun tok => jsParseInt (jsTrim tok))

/-- The tracked-pid set after a sequence of registry mutations on a
fresh manager. -/
def runRegCalls (calls : List RegCall) : List Int :=
  calls.foldl applyRegCall []

/-! # Theorems -/

/-! ## Association-list map lemmas -/

theorem mapGet_nil (k : String) : mapGet [] k = none := rfl

theorem mapGet_mapSet_self (m : List (String × TerminalSession)) (k : String)
    (v : TerminalSession) : mapGet (mapSet m k v) k = some v := by
  induction m with
  | nil => simp [mapSet, mapGet, List.find?]
  | cons kv rest ih =>
    by_cases h : kv.1 == k
    · simp [mapSet, h, mapGet, List.find?]
    · simp only [mapSet, h, Bool.false_eq_true, if_false]
      simpa [mapGet, List.find?, h] using ih

theorem mem_sessionKeys_mapSet (m : List (String × TerminalSession))
    (k : String) (v : TerminalSession) (x : String) :
    x ∈ sessionKeys (mapSet m k v) ↔ x ∈ sessionKeys m ∨ x = k := by
  induction m with
  | nil => simp [mapSet, sessionKeys]
  | cons kv rest ih =>
    by_cases h : kv.1 == k
    · have hk : kv.1 = k := by simpa using h
      simp [mapSet, h, sessionKeys, hk]
      tauto
    · simp only [mapSet, h, Bool.false_eq_true, if_false]
      simp [sessionKeys] at ih ⊢
      tauto

theorem nodup_sessionKeys_mapSet (m : List (String × TerminalSession))
    (k : String) (v : TerminalSession)
    (h : (sessionKeys m).Nodup) : (sessionKeys (mapSet m k v)).Nodup := by
  induction m with
  | nil => simp [mapSet, sessionKeys]
  | cons kv rest ih =>
    simp only [sessionKeys, List.map_cons, List.nodup_cons] at h
    by_cases hb : kv.1 == k
    · have hk : kv.1 = k := by simpa using hb
      simp only [mapSet, hb, if_true, sessionKeys, List.map_cons, List.nodup_cons]
      exact ⟨by rw [← hk]; exact h.1, h.2⟩
    · simp only [mapSet, hb, Bool.false_eq_true, if_false, sessionKeys,
        List.map_cons, List.nodup_cons]
      constructor
      · intro hmem
        rcases (mem_sessionKeys_mapSet rest k v kv.1).1 hmem with hc | hc
        · exact h.1 hc
        · exact absurd (by simp [hc]) hb
      · exact ih h.2

theorem sessionKeys_mapDelete_sublist (m : List (String × TerminalSession))
    (k : String) : (sessionKeys (mapDelete m k)).Sublist (sessionKeys m) :=
  List.Sublist.map _ (List.filter_sublist m)

theorem nodup_sessionKeys_mapDelete (m : List (String × TerminalSession))
    (k : String) (h : (sessionKeys m).Nodup) :
    (sessionKeys (mapDelete m k)).Nodup :=
  h.sublist (sessionKeys_mapDelete_sublist m k)

theorem mapGet_mapDelete_self (m : List (String × TerminalSession))
    (k : String) : mapGet (mapDelete m k) k = none := by
  induction m with
  | nil => simp [mapDelete, mapGet]
  | cons kv rest ih =>
    by_cases h : kv.1 == k
    · have hne : (kv.1 != k) = false := by simpa using h
      simp only [mapDelete, List.filter_cons, hne, Bool.false_eq_true, if_false] at *
      exact ih
    · have hne : (kv.1 != k) = true := by simpa using h
      simp only [mapDelete, List.filter_cons, hne, if_true] at *
      simpa [mapGet, List.find?, h] using ih

theorem countKey_eq_zero_of_not_mem (m : List (String × TerminalSession))
    (k : String) (h : k ∉ sessionKeys m) : countKey m k = 0 := by
  induction m with
  | nil => rfl
  | cons kv rest ih =>
    simp only [sessionKeys, List.map_cons, List.mem_cons, not_or] at h
    have hb : (kv.1 == k) = false := by
      simpa using fun hc => h.1 hc.symm
    simp only [countKey, List.filter_cons, hb, Bool.false_eq_true, if_false]
    exact ih (by simpa [sessionKeys] using h.2)

theorem countKey_mapSet_self (m : List (String × TerminalSession)) (k : String)
    (v : TerminalSession) (h : (sessionKeys m).Nodup) :
    countKey (mapSet m k v) k = 1 := by
  induction m with
  | nil => simp [mapSet, countKey]
  | cons kv rest ih =>
    simp only [sessionKeys, List.map_cons, List.nodup_cons] at h
    by_cases hb : kv.1 == k
    · have hk : kv.1 = k := by simpa using hb
      simp only [mapSet, hb, if_true, countKey, List.filter_cons, beq_self_eq_true,
        if_true, List.length_cons]
      have : countKey rest k = 0 :=
        countKey_eq_zero_of_not_mem rest k (by rw [← hk]; exact h.1)
      simpa [countKey] using this
    · simp only [mapSet, hb, Bool.false_eq_true, if_false, countKey,
        List.filter_cons]
      simpa [hb, countKey] using ih h.2

theorem countKey_le_one (m : List (String × TerminalSession)) (k : String)
    (h : (sessionKeys m).Nodup) : countKey m k ≤ 1 := by
  induction m with
  | nil => simp [countKey]
  | cons kv rest ih =>
    simp only [sessionKeys, List.map_cons, List.nodup_cons] at h
    by_cases hb : kv.1 == k
    · have hk : kv.1 = k := by simpa using hb
      have : countKey rest k = 0 :=
        countKey_eq_zero_of_not_mem rest k (by rw [← hk]; exact h.1)
      simp only [countKey, List.filter_cons, hb, if_true, List.length_cons]
      simpa [countKey] using Nat.le_of_eq this
    · simp only [countKey, List.filter_cons, hb, Bool.false_eq_true, if_false]
      exact ih h.2

/-! ## Session-table invariant -/

theorem nodup_applyTMOp (st : TMState) (op : TMOp)
    (h : (sessionKeys st.sessions).Nodup) :
    (sessionKeys (applyTMOp st op).sessions).Nodup := by
  cases op with
  | start paneId shell cwd newPid =>
    cases hm : mapGet st.sessions paneId with
    | none =>
      simp only [applyTMOp, startSession, stopSession, hm]
      exact nodup_sessionKeys_mapSet _ _ _ h
    | some s =>
      simp only [applyTMOp, startSession, stopSession, hm]
      exact nodup_sessionKeys_mapSet _ _ _ (nodup_sessionKeys_mapDelete _ _ h)
  | stop paneId =>
    cases hm : mapGet st.sessions paneId with
    | none => simpa [applyTMOp, stopSession, hm] using h
    | some s =>
      simp only [applyTMOp, stopSession, hm]
      exact nodup_sessionKeys_mapDelete _ _ h
  | procExit paneId chunks code =>
    cases hm : mapGet st.sessions paneId with
    | none => simpa [applyTMOp, runSessionProcess, hm] using h
    | some s =>
      simp only [applyTMOp, runSessionProcess, hm]
      exact nodup_sessionKeys_mapDelete _ _ h

theorem nodup_foldl_applyTMOp (ops : List TMOp) :
    ∀ st : TMState, (sessionKeys st.sessions).Nodup →
      (sessionKeys (ops.foldl applyTMOp st).sessions).Nodup := by
  induction ops with
  | nil => intro st h; simpa using h
  | cons op rest ih =>
    intro st h
    simpa using ih (applyTMOp st op) (nodup_applyTMOp st op h)

theorem nodup_runTMOps (ops : List TMOp) :
    (sessionKeys (runTMOps ops).sessions).Nodup :=
  nodup_foldl_applyTMOp ops initTM (by simp [initTM, sessionKeys])

theorem startSession_replace (st1 : TMState) (paneId : String)
    (s : TerminalSession) (sh2 : ShellType) (cwd2 : String) (p2 : Int)
    (hget : mapGet st1.sessions paneId = some s)
    (hnd1 : (sessionKeys st1.sessions).Nodup)
    (hp1 : 0 < s.pid) (hp2 : 0 < p2) :
    mapGet (startSession st1 paneId sh2 cwd2 p2).1.sessions paneId
      = some ⟨paneId, sh2, cwd2, p2⟩ ∧
    countKey (startSession st1 paneId sh2 cwd2 p2).1.sessions paneId = 1 ∧
    (startSession st1 paneId sh2 cwd2 p2).2.1
      = [RegCall.untrack s.pid, RegCall.track p2] := by
  refine ⟨?_, ?_, ?_⟩
  · simp only [startSession, stopSession, hget]
    exact mapGet_mapSet_self _ _ _
  · simp only [startSession, stopSession, hget]
    exact countKey_mapSet_self _ _ _
      (nodup_sessionKeys_mapDelete _ _ hnd1)
  · simp only [startSession, stopSession, hget, hp1, hp2, if_true]
    rfl

/-- C1: for every paneId, at most one live session exists in the
session table at any instant (any operation sequence on a fresh
manager), and calling `startSession` twice for the same paneId leaves
exactly one session for that paneId — the newer one — with the second
call performing exactly one untrack of the old pid and one track of
the new pid, in that order. -/
theorem c1_single_session_per_pane :
    (∀ ops paneId, countKey (runTMOps ops).sessions paneId ≤ 1) ∧
    (∀ st paneId sh1 cwd1 p1 sh2 cwd2 p2,
      (sessionKeys st.sessions).Nodup → 0 < p1 → 0 < p2 →
      mapGet ((startSession (startSession st paneId sh1 cwd1 p1).1
          paneId sh2 cwd2 p2).1).sessions paneId
        = some ⟨paneId, sh2, cwd2, p2⟩ ∧
      countKey ((startSession (startSession st paneId sh1 cwd1 p1).1
          paneId sh2 cwd2 p2).1).sessions paneId = 1 ∧
      (startSession (startSession st paneId sh1 cwd1 p1).1
          paneId sh2 cwd2 p2).2.1
        = [RegCall.untrack p1, RegCall.track p2]) := by
  constructor
  · intro ops paneId
    exact countKey_le_one _ _ (nodup_runTMOps ops)
  · intro st paneId sh1 cwd1 p1 sh2 cwd2 p2 hnd hp1 hp2
    have hget1 : mapGet (startSession st paneId sh1 cwd1 p1).1.sessions paneId
        = some ⟨paneId, sh1, cwd1, p1⟩ := mapGet_mapSet_self _ _ _
    have hnd1 : (sessionKeys (startSession st paneId sh1 cwd1 p1).1.sessions).Nodup := by
      cases hm : mapGet st.sessions paneId with
      | none =>
        simp only [startSession, stopSession, hm]
        exact nodup_sessionKeys_mapSet _ _ _ hnd
      | some s =>
        simp only [startSession, stopSession, hm]
        exact nodup_sessionKeys_mapSet _ _ _ (nodup_sessionKeys_mapDelete _ _ hnd)
    exact startSession_replace (startSession st paneId sh1 cwd1 p1).1
      paneId ⟨paneId, sh1, cwd1, p1⟩ sh2 cwd2 p2 hget1 hnd1 hp1 hp2

/-- Witness for C1 at a fresh manager: one start, then a replacing
start with a different pid. -/
theorem c1_witness :
    countKey (runTMOps [TMOp.start "a" ShellType.cmd "c" 5]).sessions "a" ≤ 1 ∧
    (startSession (startSession initTM "a" ShellType.cmd "c" 5).1
        "a" ShellType.powershell "d" 7).2.1
      = [RegCall.untrack 5, RegCall.track 7] :=
  ⟨c1_single_session_per_pane.1 _ _,
   (c1_single_session_per_pane.2 initTM "a" ShellType.cmd "c" 5
     ShellType.powershell "d" 7 (by simp [initTM, sessionKeys])
     (by norm_num) (by norm_num)).2.2⟩

/-! ## Event ordering on session exit -/

/-- C2: the process of a live session terminating publishes exactly one
exit event for that pane; the exit event is the last event published,
every earlier event of the run is a data event for the pane (so no data
event for the pane follows the exit event), and afterwards the session
is removed from the table and its pid untracked. -/
theorem c2_exit_ordering :
    ∀ st paneId s chunks code,
      mapGet st.sessions paneId = some s →
      st.trackedPids.Nodup →
      0 < s.pid →
      ((runSessionProcess st paneId chunks code).2.filter
          (isExitEvent paneId)).length = 1 ∧
      (runSessionProcess st paneId chunks code).2.getLast?
        = some (TerminalEvent.exit paneId code) ∧
      (∀ e ∈ (runSessionProcess st paneId chunks code).2.dropLast,
        isDataEvent paneId e = true) ∧
      mapGet (runSessionProcess st paneId chunks code).1.sessions paneId = none ∧
      s.pid ∉ (runSessionProcess st paneId chunks code).1.trackedPids := by
  intro st paneId s chunks code hget hnd hpid
  simp only [runSessionProcess, hget]
  refine ⟨?_, ?_, ?_, ?_, ?_⟩
  · rw [List.filter_append]
    have h1 : (chunks.map (TerminalEvent.data paneId)).filter
        (isExitEvent paneId) = [] := by
      rw [List.filter_eq_nil_iff]
      intro e he
      rcases List.mem_map.mp he with ⟨c, _, rfl⟩
      simp [isExitEvent]
    rw [h1]
    simp [isExitEvent]
  · exact List.getLast?_concat _
  · rw [List.dropLast_concat]
    intro e he
    rcases List.mem_map.mp he with ⟨c, _, rfl⟩
    simp [isDataEvent]
  · exact mapGet_mapDelete_self _ _
  · simp only [untrackPidSet, if_neg (by omega : ¬ s.pid ≤ 0)]
    intro hmem
    exact absurd rfl ((List.Nodup.mem_erase_iff hnd).1 hmem).1

/-- Witness for C2: a `cmd` session emitting `["a", "b"]` then exiting
with code 0. -/
theorem c2_witness :
    ((runSessionProcess (startSession initTM "a" ShellType.cmd "c" 5).1
        "a" ["a", "b"] 0).2.filter (isExitEvent "a")).length = 1 ∧
    (runSessionProcess (startSession initTM "a" ShellType.cmd "c" 5).1
        "a" ["a", "b"] 0).2.getLast? = some (TerminalEvent.exit "a" 0) :=
  ⟨(c2_exit_ordering (startSession initTM "a" ShellType.cmd "c" 5).1 "a"
      ⟨"a", ShellType.cmd, "c", 5⟩ ["a", "b"] 0 (by decide) (by decide)
      (by decide)).1,
   (c2_exit_ordering (startSession initTM "a" ShellType.cmd "c" 5).1 "a"
      ⟨"a", ShellType.cmd, "c", 5⟩ ["a", "b"] 0 (by decide) (by decide)
      (by decide)).2.1⟩

/-! ## Startup recovery sweep -/

theorem foldl_signal_eq_filter (alive : Int → Bool) :
    ∀ (l acc : List Int),
      l.foldl (fun acc pid => if alive pid then acc ++ [pid] else acc) acc
        = acc ++ l.filter alive := by
  intro l
  induction l with
  | nil => intro acc; simp
  | cons p rest ih =>
    intro acc
    by_cases h : alive p
    · simp [List.filter_cons, h, ih]
    · simp [List.filter_cons, h, ih]

/-- C3: for every registry file (and every abstracted parse outcome and
liveness oracle), `initialize()` sends a termination signal to exactly
the loaded pids that are currently alive, and persists an empty
version-1 registry regardless; an absent file and a blank file behave
identically (no signals, empty registry persisted). -/
theorem c3_recovery_sweep :
    (∀ file parse alive,
      (initializeTM file parse alive).1
        = (readTrackedPids file parse).filter alive ∧
      (initializeTM file parse alive).2 = ⟨1, []⟩) ∧
    (∀ parse alive,
      initializeTM none parse alive = ([], ⟨1, []⟩) ∧
      initializeTM (some "") parse alive = ([], ⟨1, []⟩)) := by
  have hmain : ∀ file parse alive,
      (initializeTM file parse alive).1
        = (readTrackedPids file parse).filter alive ∧
      (initializeTM file parse alive).2 = ⟨1, []⟩ := by
    intro file parse alive
    constructor
    · show cleanupStaleSessions (readTrackedPids file parse) alive = _
      rw [cleanupStaleSessions, foldl_signal_eq_filter]
      simp
    · rfl
  refine ⟨hmain, fun parse alive => ⟨?_, ?_⟩⟩
  · have h := hmain none parse alive
    have : readTrackedPids none parse = [] := rfl
    rcases h with ⟨h1, h2⟩
    rw [this] at h1
    simp only [List.filter_nil] at h1
    exact Prod.ext h1 h2
  · have h := hmain (some "") parse alive
    have : readTrackedPids (some "") parse = [] := rfl
    rcases h with ⟨h1, h2⟩
    rw [this] at h1
    simp only [List.filter_nil] at h1
    exact Prod.ext h1 h2

/-! ## Corrupt-registry recovery -/

theorem setInsertInt_nodup (s : List Int) (v : Int) (h : s.Nodup) :
    (setInsertInt s v).Nodup := by
  unfold setInsertInt
  split
  · exact h
  · simpa [List.nodup_append, h] using by assumption

theorem mem_setInsertInt (s : List Int) (v x : Int) :
    x ∈ setInsertInt s v ↔ x ∈ s ∨ x = v := by
  unfold setInsertInt
  split
  · constructor
    · exact fun hx => Or.inl hx
    · rintro (hx | rfl)
      · exact hx
      · assumption
  · simp [List.mem_append]

theorem extract_fold_spec :
    ∀ (toks : List (List Char)) (acc : List Int), acc.Nodup →
      (toks.foldl extractStep acc).Nodup ∧
      ∀ v, v ∈ toks.foldl extractStep acc ↔
        v ∈ acc ∨ (0 < v ∧
          v ∈ toks.filterMap (fun tok => jsParseInt (jsTrim tok))) := by
  intro toks
  induction toks with
  | nil =>
    intro acc h
    simp only [List.foldl_nil, List.filterMap_nil]
    exact ⟨h, fun v => by simp⟩
  | cons tok rest ih =>
    intro acc hacc
    cases hp : jsParseInt (jsTrim tok) with
    | none =>
      have hstep : extractStep acc tok = acc := by simp [extractStep, hp]
      simp only [List.foldl_cons, hstep, List.filterMap_cons, hp]
      exact ih acc hacc
    | some v0 =>
      by_cases hv : 0 < v0
      · have hstep : extractStep acc tok = setInsertInt acc v0 := by
          simp [extractStep, hp, hv]
        obtain ⟨ihn, ihm⟩ := ih (setInsertInt acc v0) (setInsertInt_nodup acc v0 hacc)
        refine ⟨by simpa [List.foldl_cons, hstep] using ihn, ?_⟩
        intro v
        simp only [List.foldl_cons, hstep, List.filterMap_cons, hp]
        rw [ihm v, mem_setInsertInt]
        simp only [List.mem_cons]
        constructor
        · rintro ((h | rfl) | ⟨hpos, hmem⟩)
          · exact Or.inl h
          · exact Or.inr ⟨hv, Or.inl rfl⟩
          · exact Or.inr ⟨hpos, Or.inr hmem⟩
        · rintro (h | ⟨hpos, (rfl | hmem)⟩)
          · exact Or.inl (Or.inl h)
          · exact Or.inl (Or.inr rfl)
          · exact Or.inr ⟨hpos, hmem⟩
      · have hstep : extractStep acc tok = acc := by
          simp [extractStep, hp, hv]
        obtain ⟨ihn, ihm⟩ := ih acc hacc
        refine ⟨by simpa [List.foldl_cons, hstep] using ihn, ?_⟩
        intro v
        simp only [List.foldl_cons, hstep, List.filterMap_cons, hp]
        rw [ihm v]
        simp only [List.mem_cons]
        constructor
        · rintro (h | ⟨hpos, hmem⟩)
          · exact Or.inl h
          · exact Or.inr ⟨hpos, Or.inr hmem⟩
        · rintro (h | ⟨hpos, (rfl | hmem)⟩)
          · exact Or.inl h
          · exact absurd hpos hv
          · exact Or.inr ⟨hpos, hmem⟩

theorem matchPidsAt_ws (c : Char) (rest : List Char) (hc : isJsWs c = true) :
    matchPidsAt (c :: rest) = none := by
  have hne : ('"' == c) = false := by
    simp only [isJsWs, Bool.or_eq_true, beq_iff_eq] at hc
    rcases hc with ((((rfl | rfl) | rfl) | rfl) | rfl) | rfl <;> decide
  simp [matchPidsAt, dropLitPrefix, hne]

theorem scanPids_all_ws : ∀ s : List Char, (∀ c ∈ s, isJsWs c) →
    scanPids s = [] := by
  intro s
  induction s with
  | nil => intro _; rw [scanPids]
  | cons c rest ih =>
    intro h
    have hm : matchPidsAt (c :: rest) = none := matchPidsAt_ws c rest (h c (by simp))
    rw [scanPids, hm]
    exact ih (fun d hd => h d (by simp [hd]))

theorem jsTrim_nil_all_ws (s : List Char) (h : jsTrim s = []) :
    ∀ c ∈ s, isJsWs c := by
  unfold jsTrim at h
  rw [List.reverse_eq_nil_iff] at h
  have hall : ∀ c ∈ (s.dropWhile isJsWs).reverse, isJsWs c :=
    List.dropWhile_eq_nil_iff.1 h
  have hdrop : ∀ c ∈ s.dropWhile isJsWs, isJsWs c := by
    intro c hc
    exact hall c (List.mem_reverse.2 hc)
  intro c hc
  rw [← List.takeWhile_append_dropWhile isJsWs s] at hc
  rcases List.mem_append.1 hc with hc | hc
  · exact List.mem_takeWhile_imp hc
  · exact hdrop c hc

theorem load_syntaxError_eq_extract (raw : String) (parse : String → ParseOutcome)
    (hp : parse raw = ParseOutcome.syntaxError)
    (hne : (jsTrim raw.data).isEmpty = false) :
    readTrackedPids (some raw) parse = extractPidsFromCorruptedPayload raw := by
  simp only [readTrackedPids, hne, Bool.false_eq_true, if_false, hp]
  by_cases hr : (extractPidsFromCorruptedPayload raw).length > 0
  · simp [hr]
  · have : extractPidsFromCorruptedPayload raw = [] :=
      List.length_eq_zero.1 (by omega)
    simp [hr, this]

/-- C4: `load()` never throws (it is a total function of the payload):
a missing file yields the empty set, and on a structurally invalid
payload (`JSON.parse` throws) it returns a duplicate-free list holding
exactly the positive integers among the values found in the
recognizable `"pids": [...]` substrings — duplicates collapsed,
non-positive values dropped. -/
theorem c4_load_corruption_tolerance :
    (∀ parse, readTrackedPids none parse = []) ∧
    (∀ raw parse, parse raw = ParseOutcome.syntaxError →
      (readTrackedPids (some raw) parse).Nodup ∧
      ∀ v, v ∈ readTrackedPids (some raw) parse ↔
        0 < v ∧ v ∈ foundPidInts raw) := by
  refine ⟨fun parse => rfl, ?_⟩
  intro raw parse hp
  by_cases hb : (jsTrim raw.data).isEmpty
  · have hws : ∀ c ∈ raw.data, isJsWs c :=
      jsTrim_nil_all_ws _ (List.isEmpty_iff.1 hb)
    have hscan : scanPids raw.data = [] := scanPids_all_ws _ hws
    have hload : readTrackedPids (some raw) parse = [] := by
      simp [readTrackedPids, hb]
    have hfound : foundPidInts raw = [] := by
      simp [foundPidInts, allPidTokens, hscan]
    rw [hload, hfound]
    simp
  · rw [load_syntaxError_eq_extract raw parse hp (by simpa using hb)]
    have h := extract_fold_spec (allPidTokens raw) [] (by simp)
    refine ⟨h.1, fun v => ?_⟩
    have := h.2 v
    simpa [extractPidsFromCorruptedPayload, foundPidInts] using this

/-- Witness for C4: a malformed payload with a recognizable pid array
containing duplicates, a zero and a negative value. -/
theorem c4_witness :
    (readTrackedPids (some "\x7b\"pids\":[12, 12, 0, -5, 34]")
        (fun _ => ParseOutcome.syntaxError)).Nodup ∧
    ∀ v, v ∈ readTrackedPids (some "\x7b\"pids\":[12, 12, 0, -5, 34]")
        (fun _ => ParseOutcome.syntaxError) ↔
      0 < v ∧ v ∈ foundPidInts "\x7b\"pids\":[12, 12, 0, -5, 34]" :=
  c4_load_corruption_tolerance.2 "\x7b\"pids\":[12, 12, 0, -5, 34]"
    (fun _ => ParseOutcome.syntaxError) rfl

/-! ## Spawn failure (interactive sessions) -/

/-- C5 evaluation: when `pty.spawn` throws, `startSession` propagates
the exception (the call errors) and publishes no event at all — in
particular no synthetic exit event with a sentinel code is published
for the pane, contrary to the specified surfacing requirement. -/
theorem c5_spawn_failure_no_exit_event :
    ∀ st paneId shell cwd,
      (startSessionSpawn st paneId shell cwd none).1
        = Except.error "spawn failed" ∧
      (startSessionSpawn st paneId shell cwd none).2.2 = [] := by
  intro st paneId shell cwd
  exact ⟨rfl, rfl⟩

/-! ## Dialect proxy in executeInSession -/

/-- C6: on a live `cmd` (legacy) session whose command matches the
PowerShell heuristic, `executeInSession` writes the transport-encoded
proxy invocation instead of the raw text; on a live `powershell`
session the same command is written verbatim; in both cases the
command text and the line-submit token are two separate writes. -/
theorem c6_dialect_proxy :
    ∀ st paneId command forceSubmit s,
      mapGet st.sessions paneId = some s →
      (s.shell = ShellType.cmd → looksLikePowerShellCommand command = true →
        executeInSession st paneId command forceSubmit
          = Except.ok ([buildPowerShellProxyCommand command, "\r"], forceSubmit)) ∧
      (s.shell = ShellType.powershell →
        executeInSession st paneId command forceSubmit
          = Except.ok ([command, "\r"], forceSubmit)) := by
  intro st paneId command forceSubmit s hget
  constructor
  · intro hsh hlooks
    simp [executeInSession, hget, hsh, hlooks]
  · intro hsh
    simp [executeInSession, hget, hsh]

/-- Witness for C6: `Get-Item` in a `cmd` pane is proxied; the same
command in a `powershell` pane is written verbatim. -/
theorem c6_witness :
    executeInSession (startSession initTM "p" ShellType.cmd "c" 5).1
        "p" "Get-Item" false
      = Except.ok ([buildPowerShellProxyCommand "Get-Item", "\r"], false) ∧
    executeInSession (startSession initTM "q" ShellType.powershell "c" 6).1
        "q" "Get-Item" false
      = Except.ok (["Get-Item", "\r"], false) :=
  ⟨(c6_dialect_proxy (startSession initTM "p" ShellType.cmd "c" 5).1
      "p" "Get-Item" false ⟨"p", ShellType.cmd, "c", 5⟩ rfl).1 rfl (by decide),
   (c6_dialect_proxy (startSession initTM "q" ShellType.powershell "c" 6).1
      "q" "Get-Item" false ⟨"q", ShellType.powershell, "c", 6⟩ rfl).2 rfl⟩

/-! ## Structured command runner -/

/-- C7: the structured-run promise rejects exactly when the child
reports a spawn-level OS error; any completed process — whatever its
exit code — resolves to a block whose `exitCode` is the reported code
(`-1` when the process could not report one), whose `completedAt` is
non-null, and whose `output` is the concatenation of all emitted
chunks in arrival order. -/
theorem c7_structured_run :
    ∀ paneId shell cwd command freshId startedAt completedAt outcome,
      ((∃ msg, (runStructuredCommand paneId shell cwd command freshId
          startedAt completedAt outcome).2.1 = Except.error msg) ↔
        (∃ msg, outcome = SpawnOutcome.spawnError msg)) ∧
      (∀ chunks code, outcome = SpawnOutcome.completes chunks code →
        ∃ blk, (runStructuredCommand paneId shell cwd command freshId
            startedAt completedAt outcome).2.1 = Except.ok blk ∧
          blk.exitCode = some (code.getD (-1)) ∧
          blk.completedAt = some completedAt ∧
          blk.output = String.join chunks) := by
  intro paneId shell cwd command freshId startedAt completedAt outcome
  cases outcome with
  | spawnError msg =>
    constructor
    · simp [runStructuredCommand]
    · intro chunks code h
      exact absurd h (by simp)
  | completes chunks code =>
    constructor
    · simp [runStructuredCommand]
    · intro chunks' code' h
      injection h with h1 h2
      subst h1; subst h2
      exact ⟨_, rfl, rfl, rfl, rfl⟩

/-- Witness for C7: a run completing with chunks `["a", "b"]` and exit
code 3 resolves with the concatenated output and non-null completion
time; a spawn error rejects. -/
theorem c7_witness :
    (∃ blk, (runStructuredCommand "p" ShellType.cmd "c" "exit 3" "id" "t0" "t1"
        (SpawnOutcome.completes ["a", "b"] (some 3))).2.1 = Except.ok blk ∧
      blk.exitCode = some ((some (3 : Int)).getD (-1)) ∧
      blk.completedAt = some "t1" ∧
      blk.output = String.join ["a", "b"]) ∧
    (∃ msg, (runStructuredCommand "p" ShellType.cmd "c" "x" "id" "t0" "t1"
        (SpawnOutcome.spawnError "ENOENT")).2.1 = Except.error msg) :=
  ⟨(c7_structured_run "p" ShellType.cmd "c" "exit 3" "id" "t0" "t1"
      (SpawnOutcome.completes ["a", "b"] (some 3))).2 ["a", "b"] (some 3) rfl,
   (c7_structured_run "p" ShellType.cmd "c" "x" "id" "t0" "t1"
      (SpawnOutcome.spawnError "ENOENT")).1.2 ⟨"ENOENT", rfl⟩⟩

/-! ## Absent-pane behavior -/

/-- C8: on a paneId with no live session, `sendInput` and
`executeInSession` fail fast with a descriptive error, while
`stopSession` and `resize` are silent no-ops leaving the session table
and the tracked-pid registry unchanged (and performing no registry
mutation, no signal and no resize). -/
theorem c8_absent_pane :
    ∀ st paneId input command cols rows forceSubmit,
      mapGet st.sessions paneId = none →
      sendInput st paneId input
        = Except.error ("No terminal session for pane " ++ paneId) ∧
      executeInSession st paneId command forceSubmit
        = Except.error ("No terminal session for pane " ++ paneId) ∧
      stopSession st paneId = (st, [], []) ∧
      resize st paneId cols rows = (st, none) := by
  intro st paneId input command cols rows forceSubmit h
  exact ⟨by simp [sendInput, h], by simp [executeInSession, h],
         by simp [stopSession, h], by simp [resize, h]⟩

/-- Witness for C8 on a fresh manager with no sessions. -/
theorem c8_witness :
    sendInput initTM "x" "hello"
      = Except.error ("No terminal session for pane " ++ "x") ∧
    executeInSession initTM "x" "ls" false
      = Except.error ("No terminal session for pane " ++ "x") ∧
    stopSession initTM "x" = (initTM, [], []) ∧
    resize initTM "x" 80 24 = (initTM, none) :=
  c8_absent_pane initTM "x" "hello" "ls" 80 24 false rfl

/-! ## Destructive-command classifier -/

theorem ucPairs_lower_fixed :
    ucPairs.all (fun p => lowerChar p.2 == p.2) = true := by decide

theorem lowerChar_idem (c : Char) : lowerChar (lowerChar c) = lowerChar c := by
  cases h : ucPairs.find? (fun p => p.1 == c) with
  | none =>
    have hc : lowerChar c = c := by simp [lowerChar, h]
    rw [hc]
    exact hc
  | some p =>
    have hmem : p ∈ ucPairs := List.mem_of_find?_eq_some h
    have hc : lowerChar c = p.2 := by simp [lowerChar, h]
    rw [hc]
    simpa using List.all_eq_true.1 ucPairs_lower_fixed p hmem

theorem strLower_idem (s : List Char) : strLower (strLower s) = strLower s := by
  induction s with
  | nil => rfl
  | cons c cs ih =>
    simp only [strLower, List.map_cons] at *
    rw [lowerChar_idem]
    simp only [List.cons.injEq, true_and]
    exact ih

/-- C9: the destructive-command classifier is a pure function of the
command string, invariant under ASCII case folding of its input (the
`/i` flag on every pattern), with `rm -rf /tmp/x` and
`git push --force` classified destructive and `ls -la` not. -/
theorem c9_classifier :
    (∀ command : String,
      isDestructiveCommand command
        = isDestructiveCommand (String.mk (strLower command.data))) ∧
    isDestructiveCommand "rm -rf /tmp/x" = true ∧
    isDestructiveCommand "git push --force" = true ∧
    isDestructiveCommand "ls -la" = false := by
  refine ⟨?_, by decide, by decide, by decide⟩
  intro command
  simp only [isDestructiveCommand]
  rw [strLower_idem]

/-! ## Registry payload invariant -/

theorem regcall_fold_invariant :
    ∀ (calls : List RegCall) (s : List Int),
      s.Nodup → (∀ p ∈ s, 0 < p) →
      (calls.foldl applyRegCall s).Nodup ∧
      ∀ p ∈ calls.foldl applyRegCall s, 0 < p := by
  intro calls
  induction calls with
  | nil => intro s h1 h2; exact ⟨h1, h2⟩
  | cons c rest ih =>
    intro s h1 h2
    simp only [List.foldl_cons]
    apply ih
    · cases c with
      | track p =>
        by_cases hp : p ≤ 0
        · simpa [applyRegCall, trackPidSet, hp] using h1
        · simp only [applyRegCall, trackPidSet, hp, if_false]
          exact setInsertInt_nodup s p h1
      | untrack p =>
        by_cases hp : p ≤ 0
        · simpa [applyRegCall, untrackPidSet, hp] using h1
        · simp only [applyRegCall, untrackPidSet, hp, if_false]
          exact h1.erase p
      | clear => simp [applyRegCall]
    · cases c with
      | track p =>
        by_cases hp : p ≤ 0
        · simpa [applyRegCall, trackPidSet, hp] using h2
        · simp only [applyRegCall, trackPidSet, hp, if_false]
          intro q hq
          rcases (mem_setInsertInt s p q).1 hq with hq | rfl
          · exact h2 q hq
          · omega
      | untrack p =>
        by_cases hp : p ≤ 0
        · simpa [applyRegCall, untrackPidSet, hp] using h2
        · simp only [applyRegCall, untrackPidSet, hp, if_false]
          intro q hq
          exact h2 q (List.mem_of_mem_erase hq)
      | clear => simp [applyRegCall]

/-- C10: `trackPid`/`untrackPid` silently ignore non-positive
identifiers, and after any sequence of registry mutations on a fresh
manager the persisted payload carries schema version 1 and a
duplicate-free list of strictly positive pids. -/
theorem c10_registry_payload :
    (∀ (s : List Int) (p : Int), p ≤ 0 →
      trackPidSet s p = s ∧ untrackPidSet s p = s) ∧
    (∀ calls : List RegCall,
      (persistTrackedPids (runRegCalls calls)).version = 1 ∧
      (persistTrackedPids (runRegCalls calls)).pids.Nodup ∧
      ∀ p ∈ (persistTrackedPids (runRegCalls calls)).pids, 0 < p) := by
  refine ⟨fun s p hp => ⟨by simp [trackPidSet, hp], by simp [untrackPidSet, hp]⟩, ?_⟩
  intro calls
  have h := regcall_fold_invariant calls [] (by simp) (by simp)
  exact ⟨rfl, h.1, h.2⟩

/-- Witness for C10: ignoring a zero pid, and a concrete mutation
sequence with a duplicate track and a foreign untrack. -/
theorem c10_witness :
    trackPidSet [3] 0 = [3] ∧ untrackPidSet [3] 0 = [3] ∧
    (persistTrackedPids (runRegCalls
        [RegCall.track 5, RegCall.track 5, RegCall.track 0,
         RegCall.untrack 99])).pids.Nodup :=
  ⟨(c10_registry_payload.1 [3] 0 (by norm_num)).1,
   (c10_registry_payload.1 [3] 0 (by norm_num)).2,
   (c10_registry_payload.2 _).2.1⟩
